import Mathlib

/-!
Shallow embedding of the core logic of `src/app/main.py` (Soul Theme Diagnosis
API): the date normalizer `to_yyyy_mm_dd`, the integer conversion
`yyyymmdd_int`, the range resolver `find_head_zodiac`, and the `/diagnose`
handler's core join logic.

Modelling conventions:
- Python strings are Lean `String` / `List Char`.
- Python `None`-able dict lookups are `Option`.
- Raised exceptions are `Except` error values (`ValueError` from the
  normalizer carries its message string; the resolver's `HTTPException`s
  become constructors of `FindErr` / `DiagErr`).
- Python regular-expression `fullmatch` against the two fixed patterns of the
  source is embedded as a deterministic scanner; for these patterns (digit
  runs separated by one-character classes or fixed literals, where the
  bounded `\d` repetitions are always followed by a non-digit requirement or
  the end of the pattern) greedy matching with backtracking coincides with
  maximal-munch scanning, which is what the definitions below implement.
- Python `\d` / `\s` / `str.strip` cover all Unicode decimal digits and
  whitespace; the embedding covers the ASCII digits (the full-width digits of
  the input repertoire are translated to ASCII beforehand, exactly as in the
  source) and the whitespace characters listed in `isPySpace`.
- Python `int()` additionally accepts a sign and underscore digit grouping;
  every call site here first strips every `-` (and `/`) from the argument, so
  only optional surrounding whitespace, an optional `+`, and plain digit
  strings are modelled.
-/

/-- Whitespace recognised by the embedding of Python `str.strip` and `\s`. -/
def isPySpace (c : Char) : Bool :=
  c = ' ' || c = '\t' || c = '\n' || c = '\r' ||
  c = '\x0b' || c = '\x0c' || c = ' ' || c = '　'

/-- Python `str.strip()`: drop whitespace from both ends. -/
def pyStrip (l : List Char) : List Char :=
  ((l.dropWhile isPySpace).reverse.dropWhile isPySpace).reverse

/-- One character of the source's `FULL2HALF` translation table built with
`str.maketrans`: the full-width digits, slash, hyphen and period map to their
ASCII counterparts, and the year/month/day unit characters are mapped to
ASCII spaces. -/
def full2halfTable : List (Char × Char) :=
  [('０', '0'), ('１', '1'), ('２', '2'), ('３', '3'), ('４', '4'),
   ('５', '5'), ('６', '6'), ('７', '7'), ('８', '8'), ('９', '9'),
   ('／', '/'), ('－', '-'), ('．', '.'), ('年', ' '), ('月', ' '), ('日', ' ')]

def translateChar (c : Char) : Char :=
  ((full2halfTable.find? (fun p => p.1 == c)).map (fun p => p.2)).getD c

/-- Numeric value of an ASCII digit character. -/
def digitVal (c : Char) : Nat := c.toNat - 48

/-- Decimal value of a digit string, most significant first
(Python `int` on an all-digit string). -/
def digitsToNat (l : List Char) : Nat :=
  l.foldl (fun a c => 10 * a + digitVal c) 0

/-- ASCII digit character for `n ≤ 9`. -/
def digitChar (n : Nat) : Char := Char.ofNat (48 + n)

/-- Fuel-driven decimal printer: prepends the decimal digits of `n` to `acc`.
Structural in the fuel so that it evaluates by kernel reduction. -/
def toDecimalGo : Nat → Nat → List Char → List Char
  | 0, _, acc => acc
  | fuel + 1, n, acc =>
    if n < 10 then digitChar n :: acc
    else toDecimalGo fuel (n / 10) (digitChar (n % 10) :: acc)

/-- Decimal digit characters of `n`, most significant first. -/
def toDecimal (n : Nat) : List Char := toDecimalGo (n + 1) n []

/-- Python `f"{n:0wd}"` for natural `n`: decimal digits left-padded with
zeros to width `w`. -/
def padNum (w n : Nat) : List Char :=
  List.replicate (w - (toDecimal n).length) '0' ++ toDecimal n

/-- The canonical output `f"{y:04d}-{mm:02d}-{dd:02d}"` of the normalizer. -/
def formatDate (y m d : Nat) : String :=
  ⟨padNum 4 y ++ '-' :: (padNum 2 m ++ '-' :: padNum 2 d)⟩

/-- Delimiter class `[/. -]` of the first pattern. -/
def isDelim (c : Char) : Bool := c = '/' || c = '.' || c = ' ' || c = '-'

/-- `re.fullmatch(r"(\d{4})[/. -](\d{1,2})[/. -](\d{1,2})", s)`,
returning the three captured numbers. -/
def matchDelimited (l : List Char) : Option (Nat × Nat × Nat) :=
  let y4 := l.take 4
  let rest := l.drop 4
  if y4.length = 4 ∧ y4.all Char.isDigit then
    match rest with
    | e :: rest1 =>
      if isDelim e then
        let ms := rest1.takeWhile Char.isDigit
        let rest2 := rest1.dropWhile Char.isDigit
        if 1 ≤ ms.length ∧ ms.length ≤ 2 then
          match rest2 with
          | f :: rest3 =>
            if isDelim f then
              let ds := rest3.takeWhile Char.isDigit
              let rest4 := rest3.dropWhile Char.isDigit
              if 1 ≤ ds.length ∧ ds.length ≤ 2 ∧ rest4 = [] then
                some (digitsToNat y4, digitsToNat ms, digitsToNat ds)
              else none
            else none
          | [] => none
        else none
      else none
    | [] => none
  else none

/-- `re.fullmatch(r"(\d{4})\s*年\s*(\d{1,2})\s*月\s*(\d{1,2})\s*日", s)`,
returning the three captured numbers. -/
def matchJapanese (l : List Char) : Option (Nat × Nat × Nat) :=
  let y4 := l.take 4
  let rest := l.drop 4
  if y4.length = 4 ∧ y4.all Char.isDigit then
    match rest.dropWhile isPySpace with
    | '年' :: r1 =>
      let afterY := r1.dropWhile isPySpace
      let ms := afterY.takeWhile Char.isDigit
      if 1 ≤ ms.length ∧ ms.length ≤ 2 then
        match (afterY.dropWhile Char.isDigit).dropWhile isPySpace with
        | '月' :: r2 =>
          let afterM := r2.dropWhile isPySpace
          let ds := afterM.takeWhile Char.isDigit
          if 1 ≤ ds.length ∧ ds.length ≤ 2 then
            match (afterM.dropWhile Char.isDigit).dropWhile isPySpace with
            | '日' :: r3 =>
              if r3 = [] then some (digitsToNat y4, digitsToNat ms, digitsToNat ds)
              else none
            | _ => none
          else none
        | _ => none
      else none
    | _ => none
  else none

/-- The `ValueError` message raised when no date form matches. -/
def invalidFormatMsg : String :=
  "日付形式が認識できません（例: 19700724 / 1970/7/24 / 1970年7月24日）"

/-- `to_yyyy_mm_dd` of the source, split into its numeric result
`(year, month, day)`; the string result is assembled by `to_yyyy_mm_dd`
below.  The error value is the `ValueError` message. -/
def to_yyyy_mm_dd_parts (raw : String) : Except String (Nat × Nat × Nat) :=
  let s : List Char := (pyStrip raw.data).map translateChar
  match matchDelimited s with
  | some ymd => .ok ymd
  | none =>
    match matchJapanese s with
    | some ymd => .ok ymd
    | none =>
      let digits := s.filter Char.isDigit
      if digits.length = 8 then
        .ok (digitsToNat (digits.take 4),
             digitsToNat ((digits.drop 4).take 2),
             digitsToNat ((digits.drop 6).take 2))
      else if digits.length = 6 then
        let yy := digitsToNat (digits.take 2)
        .ok (if yy ≤ 29 then 2000 + yy else 1900 + yy,
             digitsToNat ((digits.drop 2).take 2),
             digitsToNat ((digits.drop 4).take 2))
      else .error invalidFormatMsg

/-- `to_yyyy_mm_dd(raw)`: normalize a birthdate string to `YYYY-MM-DD`,
or raise `ValueError` (modelled as the error message). -/
def to_yyyy_mm_dd (raw : String) : Except String String :=
  (to_yyyy_mm_dd_parts raw).map (fun ymd => formatDate ymd.1 ymd.2.1 ymd.2.2)

/-- Python `int(s)` restricted to the repertoire reaching it here
(see the header comment): optional surrounding whitespace, an optional
leading `+`, then a nonempty digit string; otherwise `ValueError`. -/
def pyInt (s : String) : Option Nat :=
  let t := pyStrip s.data
  let t := match t with
    | '+' :: t2 => t2
    | _ => t
  if t ≠ [] ∧ t.all Char.isDigit then some (digitsToNat t) else none

/-- `yyyymmdd_int(d) = int(d.replace("-", ""))`. -/
def yyyymmdd_int (d : String) : Option Nat :=
  pyInt ⟨d.data.filter (fun c => c ≠ '-')⟩

/-- Python `s.replace("/", "-")`. -/
def replaceSlash (s : String) : String :=
  ⟨s.data.map (fun c => if c = '/' then '-' else c)⟩

/-- A range record: a JSON object restricted to the keys the resolver reads
(missing key = `none`).  String values only, as in the master data. -/
structure RangeRow where
  start_date : Option String := none
  start : Option String := none
  from_ : Option String := none
  end_date : Option String := none
  end_ : Option String := none
  to_ : Option String := none
  head_sign : Option String := none
  dragon_head_zodiac : Option String := none
  zodiac : Option String := none
  head : Option String := none
  tail_sign : Option String := none
  dragon_tail_zodiac : Option String := none
  reverse_zodiac : Option String := none
  tail : Option String := none
deriving DecidableEq

/-- Python `a or b` on `str`-or-`None` values: the empty string and `None`
are falsy. -/
def pyOr (a b : Option String) : Option String :=
  match a with
  | some s => if s.isEmpty then b else some s
  | none => b

/-- Truthiness filter: `some s` when the value is a nonempty string. -/
def getTruthy (o : Option String) : Option String :=
  match o with
  | some s => if s.isEmpty then none else some s
  | none => none

/-- `row.get("start_date") or row.get("start") or row.get("from")`. -/
def resolveStart (r : RangeRow) : Option String :=
  pyOr r.start_date (pyOr r.start r.from_)

/-- `row.get("end_date") or row.get("end") or row.get("to")`. -/
def resolveEnd (r : RangeRow) : Option String :=
  pyOr r.end_date (pyOr r.end_ r.to_)

/-- `row.get("head_sign") or row.get("dragon_head_zodiac") or
row.get("zodiac") or row.get("head")`. -/
def resolveHead (r : RangeRow) : Option String :=
  pyOr r.head_sign (pyOr r.dragon_head_zodiac (pyOr r.zodiac r.head))

/-- Outcome of one iteration of the resolver's loop body on one record. -/
inductive RowStep where
  | skip
  | matched (head : String)
  | badFormat
  | noMatch
deriving DecidableEq

/-- One iteration of the `for row in ranges` loop of `find_head_zodiac`:
skip when `not (start and end and head)`; raise (HTTP 500) when a resolved
bound does not convert with `yyyymmdd_int`; return `head` when
`s_int <= bd <= e_int`. -/
def rowStep (bd : Nat) (r : RangeRow) : RowStep :=
  match getTruthy (resolveStart r), getTruthy (resolveEnd r),
        getTruthy (resolveHead r) with
  | some s, some e, some h =>
    match yyyymmdd_int (replaceSlash s), yyyymmdd_int (replaceSlash e) with
    | some si, some ei =>
      if si ≤ bd ∧ bd ≤ ei then .matched h else .noMatch
    | _, _ => .badFormat
  | _, _, _ => .skip

/-- Failures of `find_head_zodiac`: `ValueError` on the birthdate string
itself, `HTTPException(500, "Invalid range date format…")`, and
`HTTPException(422, "Birthdate is outside of supported master ranges.")`. -/
inductive FindErr where
  | invalidBirthdate
  | invalidRangeFormat
  | outOfRange
deriving DecidableEq

/-- The scanning loop of `find_head_zodiac` over the record list. -/
def findLoop (bd : Nat) : List RangeRow → Except FindErr String
  | [] => .error .outOfRange
  | r :: rest =>
    match rowStep bd r with
    | .matched h => .ok h
    | .badFormat => .error .invalidRangeFormat
    | .skip => findLoop bd rest
    | .noMatch => findLoop bd rest

/-- `find_head_zodiac(bd_str, ranges)`. -/
def find_head_zodiac (bd_str : String) (ranges : List RangeRow) :
    Except FindErr String :=
  match yyyymmdd_int bd_str with
  | none => .error .invalidBirthdate
  | some bd => findLoop bd ranges

/-- The resolved numeric interval and head of a record, when the record
would not be skipped and both bounds convert. -/
def rowData (r : RangeRow) : Option (Nat × Nat × String) :=
  match getTruthy (resolveStart r), getTruthy (resolveEnd r),
        getTruthy (resolveHead r) with
  | some s, some e, some h =>
    match yyyymmdd_int (replaceSlash s), yyyymmdd_int (replaceSlash e) with
    | some si, some ei => some (si, ei, h)
    | _, _ => none
  | _, _, _ => none

/-- Response body of `/diagnose` (`DiagnoseOut`). -/
structure DiagnoseOut where
  dragon_head_zodiac : String
  dragon_tail_zodiac : String
  soul_theme : String
  reverse_theme : String
deriving DecidableEq

/-- Failures of the `/diagnose` core logic (HTTP 400/500/422/500/500). -/
inductive DiagErr where
  | invalidBirthdate
  | invalidRangeFormat
  | outOfRange
  | mappingMissing (head : String)
  | mappingKeysMissing (head : String)
deriving DecidableEq

/-- A JSON object as an association list (keys assumed unique, as produced
by `json.load` on an object). -/
def lookupKey (info : List (String × String)) (k : String) : Option String :=
  (info.find? (fun p => p.1 == k)).map (fun p => p.2)

/-- The three keys `diagnose` requires of a theme-map entry. -/
def requiredKeys : List String :=
  ["dragon_tail_zodiac", "soul_theme", "reverse_theme"]

/-- `info[k]` after a containment check (`""` is never reached when the
containment check has succeeded). -/
def getVal (info : List (String × String)) (k : String) : String :=
  (lookupKey info k).getD ""

/-- The core of the `/diagnose` handler after input normalization: range
lookup, theme-map lookup (`zmap.get(head)`, falsy when missing or empty),
required-key check, and assembly of `DiagnoseOut`.  The `zmap` is an
association list of JSON objects. -/
def diagnose (birthdate : String) (ranges : List RangeRow)
    (zmap : List (String × List (String × String))) :
    Except DiagErr DiagnoseOut :=
  match find_head_zodiac birthdate ranges with
  | .error .invalidBirthdate => .error .invalidBirthdate
  | .error .invalidRangeFormat => .error .invalidRangeFormat
  | .error .outOfRange => .error .outOfRange
  | .ok head =>
    match (zmap.find? (fun p => p.1 == head)).map (fun p => p.2) with
    | none => .error (.mappingMissing head)
    | some info =>
      if info.isEmpty then .error (.mappingMissing head)
      else if requiredKeys.all (fun k => (info.find? (fun p => p.1 == k)).isSome) then
        .ok { dragon_head_zodiac := head,
              dragon_tail_zodiac := getVal info "dragon_tail_zodiac",
              soul_theme := getVal info "soul_theme",
              reverse_theme := getVal info "reverse_theme" }
      else .error (.mappingKeysMissing head)

/-- Substring test used to state facts about the error message. -/
def leadsWith : List Char → List Char → Bool
  | [], _ => true
  | _ :: _, [] => false
  | a :: as, b :: bs => a == b && leadsWith as bs

/-- `needle` occurs contiguously in `hay`. -/
def hasSub (needle hay : List Char) : Bool :=
  (List.range (hay.length + 1)).any (fun i => leadsWith needle (hay.drop i))

/-- Modelled from the spec (for comparison with the code, not from the
source): resolution of a logical field as "the first *present* key among
the synonyms", presence alone deciding, as the spec words it. -/
def specFirstPresent (l : List (Option String)) : Option String :=
  l.findSome? id

/-- First synonym with a truthy (nonempty) value — the behaviour the code
actually implements, used to state the amended resolution claim. -/
def firstTruthy (l : List (Option String)) : Option String :=
  l.findSome? getTruthy

/-! ### Properties of the decimal printer and of digit strings -/

/-- The ASCII digit characters. -/
def digitChars : List Char := ['0', '1', '2', '3', '4', '5', '6', '7', '8', '9']

theorem digitChar_mem (k : Nat) (hk : k < 10) : digitChar k ∈ digitChars := by
  interval_cases k <;> decide

theorem digitVal_digitChar (k : Nat) (hk : k < 10) : digitVal (digitChar k) = k := by
  interval_cases k <;> decide

theorem toDecimalGo_irrel (f1 : Nat) : ∀ (f2 n : Nat) (acc : List Char),
    n < f1 → n < f2 → toDecimalGo f1 n acc = toDecimalGo f2 n acc := by
  induction f1 with
  | zero => intro f2 n acc h1 _; omega
  | succ f ih =>
    intro f2 n acc h1 h2
    cases f2 with
    | zero => omega
    | succ f2 =>
      by_cases hn : n < 10
      · simp [toDecimalGo, hn]
      · have hdiv : n / 10 < n := Nat.div_lt_self (by omega) (by omega)
        simp only [toDecimalGo, hn, if_false]
        exact ih f2 (n / 10) _ (by omega) (by omega)

theorem toDecimalGo_acc (fuel : Nat) : ∀ (n : Nat) (acc : List Char),
    toDecimalGo fuel n acc = toDecimalGo fuel n [] ++ acc := by
  induction fuel with
  | zero => intro n acc; simp [toDecimalGo]
  | succ f ih =>
    intro n acc
    by_cases hn : n < 10
    · simp [toDecimalGo, hn]
    · simp only [toDecimalGo, hn, if_false]
      rw [ih (n / 10) (digitChar (n % 10) :: acc),
          ih (n / 10) (digitChar (n % 10) :: [])]
      simp

theorem toDecimal_eq (n : Nat) : toDecimal n =
    if n < 10 then [digitChar n]
    else toDecimal (n / 10) ++ [digitChar (n % 10)] := by
  by_cases hn : n < 10
  · simp [toDecimal, toDecimalGo, hn]
  · have hdiv : n / 10 < n := Nat.div_lt_self (by omega) (by omega)
    rw [if_neg hn]
    show toDecimalGo (n + 1) n [] = toDecimal (n / 10) ++ [digitChar (n % 10)]
    rw [show toDecimalGo (n + 1) n [] = toDecimalGo n (n / 10) [digitChar (n % 10)] from by
      simp [toDecimalGo, hn]]
    rw [toDecimalGo_acc]
    congr 1
    show toDecimalGo n (n / 10) [] = toDecimalGo (n / 10 + 1) (n / 10) []
    exact toDecimalGo_irrel n (n / 10 + 1) (n / 10) [] (by omega) (by omega)

theorem mem_toDecimal (n : Nat) : ∀ c ∈ toDecimal n, c ∈ digitChars := by
  induction n using Nat.strong_induction_on with
  | _ n ih =>
    intro c hc
    rw [toDecimal_eq] at hc
    by_cases hn : n < 10
    · simp [hn] at hc
      exact hc ▸ digitChar_mem n hn
    · have hdiv : n / 10 < n := Nat.div_lt_self (by omega) (by omega)
      simp [hn] at hc
      rcases hc with hc | hc
      · exact ih (n / 10) hdiv c hc
      · exact hc ▸ digitChar_mem (n % 10) (Nat.mod_lt n (by omega))

theorem digitsToNat_shift : ∀ (l : List Char) (a : Nat),
    l.foldl (fun a c => 10 * a + digitVal c) a = a * 10 ^ l.length + digitsToNat l := by
  intro l
  induction l with
  | nil => intro a; simp [digitsToNat]
  | cons c t ih =>
    intro a
    simp only [List.foldl, digitsToNat, List.length_cons]
    rw [ih (10 * a + digitVal c), ih (10 * 0 + digitVal c)]
    ring

theorem digitsToNat_append (l1 l2 : List Char) :
    digitsToNat (l1 ++ l2) = digitsToNat l1 * 10 ^ l2.length + digitsToNat l2 := by
  simp only [digitsToNat, List.foldl_append]
  rw [digitsToNat_shift l2 (l1.foldl _ 0)]
  rfl

theorem digitsToNat_toDecimal (n : Nat) : digitsToNat (toDecimal n) = n := by
  induction n using Nat.strong_induction_on with
  | _ n ih =>
    rw [toDecimal_eq]
    by_cases hn : n < 10
    · simp [hn, digitsToNat, digitVal_digitChar n hn]
    · have hdiv : n / 10 < n := Nat.div_lt_self (by omega) (by omega)
      simp only [hn, if_false]
      rw [digitsToNat_append, ih (n / 10) hdiv]
      have hm : digitsToNat [digitChar (n % 10)] = n % 10 := by
        simp [digitsToNat, digitVal_digitChar (n % 10) (Nat.mod_lt n (by omega))]
      rw [hm]
      simp
      omega

theorem length_toDecimal_pos (n : Nat) : 1 ≤ (toDecimal n).length := by
  rw [toDecimal_eq]
  by_cases hn : n < 10 <;> simp [hn]

theorem length_toDecimal_le (n : Nat) : ∀ w : Nat, 1 ≤ w → n < 10 ^ w →
    (toDecimal n).length ≤ w := by
  induction n using Nat.strong_induction_on with
  | _ n ih =>
    intro w hw hn10
    rw [toDecimal_eq]
    by_cases hn : n < 10
    · simp [hn]; omega
    · have hdiv : n / 10 < n := Nat.div_lt_self (by omega) (by omega)
      have hw2 : 2 ≤ w := by
        by_contra hcon
        have : w = 1 := by omega
        subst this
        simp at hn10
        omega
      have hstep : n / 10 < 10 ^ (w - 1) := by
        apply Nat.div_lt_of_lt_mul
        have hpow : 10 * 10 ^ (w - 1) = 10 ^ w := by
          rw [← pow_succ']
          congr 1
          omega
        omega
      have := ih (n / 10) hdiv (w - 1) (by omega) hstep
      simp [hn]
      omega

theorem isDigit_toNat {c : Char} (h : c.isDigit = true) :
    48 ≤ c.toNat ∧ c.toNat ≤ 57 := by
  simp [Char.isDigit] at h
  exact h

theorem digitVal_le {c : Char} (h : c.isDigit = true) : digitVal c ≤ 9 := by
  have := isDigit_toNat h
  simp [digitVal]
  omega

theorem digitsToNat_lt : ∀ l : List Char, (∀ c ∈ l, c.isDigit) →
    digitsToNat l < 10 ^ l.length := by
  have key : ∀ (l : List Char) (a : Nat), (∀ c ∈ l, c.isDigit) →
      l.foldl (fun a c => 10 * a + digitVal c) a < (a + 1) * 10 ^ l.length := by
    intro l
    induction l with
    | nil => intro a _; simp
    | cons c t ih =>
      intro a hl
      have hc : digitVal c ≤ 9 := digitVal_le (hl c (by simp))
      have ht := ih (10 * a + digitVal c) (fun x hx => hl x (by simp [hx]))
      have hle : (10 * a + digitVal c + 1) * 10 ^ t.length ≤
          (a + 1) * (10 * 10 ^ t.length) := by
        have : 10 * a + digitVal c + 1 ≤ (a + 1) * 10 := by omega
        calc (10 * a + digitVal c + 1) * 10 ^ t.length
            ≤ (a + 1) * 10 * 10 ^ t.length := Nat.mul_le_mul_right _ this
          _ = (a + 1) * (10 * 10 ^ t.length) := by ring
      simp only [List.foldl, List.length_cons]
      calc List.foldl (fun a c => 10 * a + digitVal c) (10 * a + digitVal c) t
          < (10 * a + digitVal c + 1) * 10 ^ t.length := ht
        _ ≤ (a + 1) * (10 * 10 ^ t.length) := hle
        _ = (a + 1) * 10 ^ (t.length + 1) := by rw [Nat.pow_succ]; ring
  intro l hl
  have := key l 0 hl
  simpa [digitsToNat] using this

theorem length_padNum {w n : Nat} (hw : 1 ≤ w) (hn : n < 10 ^ w) :
    (padNum w n).length = w := by
  have hle := length_toDecimal_le n w hw hn
  simp [padNum]
  omega

theorem mem_padNum {w n : Nat} : ∀ c ∈ padNum w n, c ∈ digitChars := by
  intro c hc
  simp only [padNum, List.mem_append] at hc
  rcases hc with hc | hc
  · rw [List.eq_of_mem_replicate hc]; decide
  · exact mem_toDecimal n c hc

theorem digitsToNat_replicate_zero (k : Nat) :
    digitsToNat (List.replicate k '0') = 0 := by
  induction k with
  | zero => rfl
  | succ k ih =>
    have : List.replicate (k + 1) '0' = '0' :: List.replicate k '0' := rfl
    rw [this]
    simpa [digitsToNat, digitVal] using ih

theorem digitsToNat_padNum (w n : Nat) : digitsToNat (padNum w n) = n := by
  simp only [padNum]
  rw [digitsToNat_append, digitsToNat_replicate_zero, digitsToNat_toDecimal]
  simp

theorem all_isDigit_of_mem_digitChars :
    ∀ c ∈ digitChars, c.isDigit = true := by decide

theorem padNum_all_isDigit {w n : Nat} : (padNum w n).all Char.isDigit = true := by
  rw [List.all_eq_true]
  intro c hc
  exact all_isDigit_of_mem_digitChars c (mem_padNum c hc)

theorem matchDelimited_bounds {l : List Char} {y m d : Nat}
    (h : matchDelimited l = some (y, m, d)) : y < 10000 ∧ m < 100 ∧ d < 100 := by
  unfold matchDelimited at h
  dsimp only at h
  split at h
  case isFalse => exact absurd h (by simp)
  case isTrue hy4 =>
    split at h
    case h_2 => exact absurd h (by simp)
    case h_1 e rest1 heq =>
      split at h
      case isFalse => exact absurd h (by simp)
      case isTrue hdelim =>
        split at h
        case isFalse => exact absurd h (by simp)
        case isTrue hms =>
          split at h
          case h_2 => exact absurd h (by simp)
          case h_1 f rest3 heq2 =>
            split at h
            case isFalse => exact absurd h (by simp)
            case isTrue hf =>
              split at h
              case isFalse => exact absurd h (by simp)
              case isTrue hds =>
                injection h with h2
                injection h2 with hy hmd
                injection hmd with hm hd
                subst hy hm hd
                refine ⟨?_, ?_, ?_⟩
                · have := digitsToNat_lt (l.take 4) (by
                    intro c hc
                    have := List.all_eq_true.mp hy4.2 c hc
                    simpa using this)
                  rw [hy4.1] at this
                  simpa using this
                · have hall : ∀ c ∈ rest1.takeWhile Char.isDigit, c.isDigit := by
                    intro c hc
                    exact List.mem_takeWhile_imp hc
                  have := digitsToNat_lt _ hall
                  have hlen : (rest1.takeWhile Char.isDigit).length ≤ 2 := hms.2
                  calc digitsToNat (rest1.takeWhile Char.isDigit)
                      < 10 ^ (rest1.takeWhile Char.isDigit).length := this
                    _ ≤ 10 ^ 2 := Nat.pow_le_pow_right (by omega) hlen
                    _ = 100 := by norm_num
                · have hall : ∀ c ∈ rest3.takeWhile Char.isDigit, c.isDigit := by
                    intro c hc
                    exact List.mem_takeWhile_imp hc
                  have := digitsToNat_lt _ hall
                  have hlen : (rest3.takeWhile Char.isDigit).length ≤ 2 := hds.2.1
                  calc digitsToNat (rest3.takeWhile Char.isDigit)
                      < 10 ^ (rest3.takeWhile Char.isDigit).length := this
                    _ ≤ 10 ^ 2 := Nat.pow_le_pow_right (by omega) hlen
                    _ = 100 := by norm_num

theorem takeWhile_all {p : Char → Bool} : ∀ {l : List Char}, (∀ c ∈ l, p c) → l.takeWhile p = l := by
  intro l
  induction l with
  | nil => intro _; rfl
  | cons a t ih =>
    intro h
    simp [List.takeWhile, h a (by simp)]
    intro c hc
    exact h c (by simp [hc])

theorem dropWhile_all {p : Char → Bool} : ∀ {l : List Char}, (∀ c ∈ l, p c) → l.dropWhile p = [] := by
  intro l
  induction l with
  | nil => intro _; rfl
  | cons a t ih =>
    intro h
    simp [List.dropWhile, h a (by simp)]
    intro c hc
    exact h c (by simp [hc])

theorem matchDelimited_format {y m d : Nat} (hy : y < 10000) (hm : m < 100) (hd : d < 100) :
    matchDelimited (padNum 4 y ++ '-' :: (padNum 2 m ++ '-' :: padNum 2 d)) = some (y, m, d) := by
  have e4 : (10 : Nat) ^ 4 = 10000 := by norm_num
  have e2 : (10 : Nat) ^ 2 = 100 := by norm_num
  have h4 : (padNum 4 y).length = 4 := length_padNum (by omega) (by omega)
  have h2m : (padNum 2 m).length = 2 := length_padNum (by omega) (by omega)
  have h2d : (padNum 2 d).length = 2 := length_padNum (by omega) (by omega)
  have hmAll : ∀ c ∈ padNum 2 m, Char.isDigit c := fun c hc =>
    all_isDigit_of_mem_digitChars c (mem_padNum c hc)
  have hdAll : ∀ c ∈ padNum 2 d, Char.isDigit c := fun c hc =>
    all_isDigit_of_mem_digitChars c (mem_padNum c hc)
  unfold matchDelimited
  dsimp only
  rw [List.take_left' h4, List.drop_left' h4, if_pos ⟨h4, padNum_all_isDigit⟩]
  show (if isDelim '-' = true then _ else none) = _
  rw [if_pos (show isDelim '-' = true from by decide)]
  rw [List.takeWhile_append_of_pos hmAll, List.dropWhile_append_of_pos hmAll]
  rw [List.takeWhile_cons_of_neg (by decide), List.dropWhile_cons_of_neg (by decide)]
  rw [List.append_nil]
  rw [if_pos (show 1 ≤ (padNum 2 m).length ∧ (padNum 2 m).length ≤ 2 from by omega)]
  show (if isDelim '-' = true then _ else none) = _
  rw [if_pos (show isDelim '-' = true from by decide)]
  rw [takeWhile_all hdAll, dropWhile_all hdAll]
  rw [if_pos (show 1 ≤ (padNum 2 d).length ∧ (padNum 2 d).length ≤ 2 ∧ ([] : List Char) = [] from by
    refine ⟨by omega, by omega, rfl⟩)]
  rw [digitsToNat_padNum, digitsToNat_padNum, digitsToNat_padNum]

/-- The characters a canonical output string is made of. -/
def fmtChars : List Char := '-' :: digitChars

theorem mem_formatDate {y m d : Nat} : ∀ c ∈ (formatDate y m d).data, c ∈ fmtChars := by
  intro c hc
  have hc2 : c ∈ padNum 4 y ++ '-' :: (padNum 2 m ++ '-' :: padNum 2 d) := hc
  simp only [List.mem_append, List.mem_cons] at hc2
  rcases hc2 with h | h | h | h | h
  · exact List.mem_cons_of_mem _ (mem_padNum c h)
  · simp [fmtChars, h]
  · exact List.mem_cons_of_mem _ (mem_padNum c h)
  · simp [fmtChars, h]
  · exact List.mem_cons_of_mem _ (mem_padNum c h)

theorem fmtChars_props : ∀ c ∈ fmtChars, isPySpace c = false ∧ translateChar c = c := by decide

theorem dropWhile_nohead {p : Char → Bool} {l : List Char}
    (h : ∀ c ∈ l, p c = false) : l.dropWhile p = l := by
  cases l with
  | nil => rfl
  | cons a t => exact List.dropWhile_cons_of_neg (by simp [h a (by simp)])

theorem pyStrip_id {l : List Char} (h : ∀ c ∈ l, isPySpace c = false) : pyStrip l = l := by
  unfold pyStrip
  rw [dropWhile_nohead h]
  rw [dropWhile_nohead (fun c hc => h c (List.mem_reverse.mp hc))]
  exact List.reverse_reverse l

theorem map_translate_id {l : List Char} (h : ∀ c ∈ l, translateChar c = c) :
    l.map translateChar = l := by
  rw [List.map_congr_left h]
  simp

theorem matchJapanese_nen {l : List Char} {v : Nat × Nat × Nat}
    (h : matchJapanese l = some v) : '年' ∈ l := by
  unfold matchJapanese at h
  dsimp only at h
  split at h
  case isFalse => exact absurd h (by simp)
  case isTrue hy =>
    split at h
    case h_2 => exact absurd h (by simp)
    case h_1 r1 heq =>
      have h1 : '年' ∈ (l.drop 4).dropWhile isPySpace := by rw [heq]; simp
      have h2 : '年' ∈ l.drop 4 := (List.dropWhile_sublist _).subset h1
      exact (List.drop_sublist 4 l).subset h2

theorem translateChar_ne_nen (c : Char) : translateChar c ≠ '年' := by
  unfold translateChar
  cases hf : full2halfTable.find? (fun p => p.1 == c) with
  | none =>
    simp only [Option.map_none', Option.getD_none]
    intro h
    subst h
    have := List.find?_eq_none.mp hf ('年', ' ') (by decide)
    simp at this
  | some p =>
    simp only [Option.map_some', Option.getD_some]
    have hmem := List.mem_of_find?_eq_some hf
    have hall : ∀ x ∈ full2halfTable, x.2 ≠ '年' := by decide
    exact hall p hmem

theorem matchJapanese_map_translate (l : List Char) :
    matchJapanese (l.map translateChar) = none := by
  cases h : matchJapanese (l.map translateChar) with
  | none => rfl
  | some v =>
    exfalso
    have hmem := matchJapanese_nen h
    rw [List.mem_map] at hmem
    obtain ⟨c, _, hc⟩ := hmem
    exact translateChar_ne_nen c hc

theorem digitsToNat_take_lt {l : List Char} (hall : ∀ c ∈ l, c.isDigit) (k : Nat) :
    digitsToNat (l.take k) < 10 ^ k := by
  have h1 : ∀ c ∈ l.take k, c.isDigit := fun c hc =>
    hall c ((List.take_sublist k l).subset hc)
  calc digitsToNat (l.take k) < 10 ^ (l.take k).length := digitsToNat_lt _ h1
    _ ≤ 10 ^ k := Nat.pow_le_pow_right (by omega) (by simp [List.length_take])

theorem parts_bounds {raw : String} {y m d : Nat}
    (h : to_yyyy_mm_dd_parts raw = .ok (y, m, d)) :
    y < 10000 ∧ m < 100 ∧ d < 100 := by
  unfold to_yyyy_mm_dd_parts at h
  dsimp only at h
  split at h
  case h_1 ymd heq =>
    injection h with h2
    subst h2
    exact matchDelimited_bounds heq
  case h_2 =>
    rw [matchJapanese_map_translate] at h
    dsimp only at h
    have hall : ∀ c ∈ ((pyStrip raw.data).map translateChar).filter Char.isDigit,
        c.isDigit := fun c hc => List.of_mem_filter hc
    have hdrop : ∀ k, ∀ c ∈ (((pyStrip raw.data).map translateChar).filter Char.isDigit).drop k,
        c.isDigit := fun k c hc => hall c ((List.drop_sublist k _).subset hc)
    split at h
    case isTrue h8 =>
      injection h with h2
      injection h2 with hy hmd
      injection hmd with hm hd
      subst hy hm hd
      refine ⟨?_, ?_, ?_⟩
      · have := digitsToNat_take_lt hall 4
        omega
      · have := digitsToNat_take_lt (hdrop 4) 2
        omega
      · have := digitsToNat_take_lt (hdrop 6) 2
        omega
    case isFalse =>
      split at h
      case isFalse => exact absurd h (by simp)
      case isTrue h6 =>
        injection h with h2
        injection h2 with hy hmd
        injection hmd with hm hd
        subst hy hm hd
        have hyy := digitsToNat_take_lt hall 2
        refine ⟨?_, ?_, ?_⟩
        · split <;> omega
        · have := digitsToNat_take_lt (hdrop 2) 2
          omega
        · have := digitsToNat_take_lt (hdrop 4) 2
          omega

theorem parts_format {y m d : Nat} (hy : y < 10000) (hm : m < 100) (hd : d < 100) :
    to_yyyy_mm_dd_parts (formatDate y m d) = .ok (y, m, d) := by
  have hprops : ∀ c ∈ (formatDate y m d).data, isPySpace c = false ∧ translateChar c = c :=
    fun c hc => fmtChars_props c (mem_formatDate c hc)
  unfold to_yyyy_mm_dd_parts
  dsimp only
  have hs : (pyStrip (formatDate y m d).data).map translateChar = (formatDate y m d).data := by
    rw [pyStrip_id (fun c hc => (hprops c hc).1)]
    exact map_translate_id (fun c hc => (hprops c hc).2)
  rw [hs]
  have hdata : (formatDate y m d).data = padNum 4 y ++ '-' :: (padNum 2 m ++ '-' :: padNum 2 d) := rfl
  rw [hdata, matchDelimited_format hy hm hd]

theorem rowStep_of_rowData {r : RangeRow} {si ei : Nat} {h : String}
    (hr : rowData r = some (si, ei, h)) (bd : Nat) :
    rowStep bd r = if si ≤ bd ∧ bd ≤ ei then .matched h else .noMatch := by
  unfold rowData at hr
  unfold rowStep
  split at hr
  case h_2 => exact absurd hr (by simp)
  case h_1 s e hh heq1 heq2 heq3 =>
    split at hr
    case h_2 => exact absurd hr (by simp)
    case h_1 si2 ei2 heq4 heq5 =>
      injection hr with hr2
      injection hr2 with ha hb
      injection hb with hb hc
      subst ha hb hc
      rfl

theorem parts_error_msg {raw : String} {e : String}
    (h : to_yyyy_mm_dd_parts raw = .error e) : e = invalidFormatMsg := by
  unfold to_yyyy_mm_dd_parts at h
  dsimp only at h
  split at h
  case h_1 => exact absurd h (by simp)
  case h_2 =>
    split at h
    case h_1 => exact absurd h (by simp)
    case h_2 =>
      split at h
      case isTrue => exact absurd h (by simp)
      case isFalse =>
        split at h
        case isTrue => exact absurd h (by simp)
        case isFalse =>
          injection h with h2
          exact h2.symm

theorem findLoop_first (bd : Nat) : ∀ (pre : List RangeRow) (r : RangeRow)
    (post : List RangeRow) (h : String),
    (∀ q ∈ pre, rowStep bd q = .skip ∨ rowStep bd q = .noMatch) →
    rowStep bd r = .matched h →
    findLoop bd (pre ++ r :: post) = .ok h := by
  intro pre
  induction pre with
  | nil =>
    intro r post h _ hr
    simp [findLoop, hr]
  | cons q t ih =>
    intro r post h hpre hr
    have hq := hpre q (by simp)
    rcases hq with hq | hq <;> simp [findLoop, hq] <;>
      exact ih r post h (fun x hx => hpre x (by simp [hx])) hr

theorem findLoop_outOfRange (bd : Nat) : ∀ ranges : List RangeRow,
    (∀ r ∈ ranges, rowStep bd r = .skip ∨ rowStep bd r = .noMatch) →
    findLoop bd ranges = .error .outOfRange := by
  intro ranges
  induction ranges with
  | nil => intro _; rfl
  | cons q t ih =>
    intro hall
    have hq := hall q (by simp)
    rcases hq with hq | hq <;> simp [findLoop, hq] <;>
      exact ih (fun x hx => hall x (by simp [hx]))

/-- Erase the tail-related keys of a record. -/
def stripTails (r : RangeRow) : RangeRow :=
  { r with tail_sign := none, dragon_tail_zodiac := none,
           reverse_zodiac := none, tail := none }

theorem rowStep_stripTails (bd : Nat) (r : RangeRow) :
    rowStep bd (stripTails r) = rowStep bd r := rfl

theorem findLoop_stripTails (bd : Nat) : ∀ ranges : List RangeRow,
    findLoop bd (ranges.map stripTails) = findLoop bd ranges := by
  intro ranges
  induction ranges with
  | nil => rfl
  | cons q t ih =>
    show (match rowStep bd (stripTails q) with
      | .matched h => Except.ok h
      | .badFormat => Except.error FindErr.invalidRangeFormat
      | .skip => findLoop bd (t.map stripTails)
      | .noMatch => findLoop bd (t.map stripTails)) = _
    rw [rowStep_stripTails, ih]
    rfl

theorem getTruthy_pyOr (a b : Option String) :
    getTruthy (pyOr a b) = (getTruthy a).or (getTruthy b) := by
  cases a with
  | none => simp [pyOr, getTruthy]
  | some s =>
    by_cases hs : s.isEmpty <;> simp [pyOr, getTruthy, hs]

theorem firstTruthy_eq (a b c : Option String) :
    getTruthy (pyOr a (pyOr b c)) = firstTruthy [a, b, c] := by
  rw [getTruthy_pyOr, getTruthy_pyOr]
  simp [firstTruthy, List.findSome?]
  cases ha : getTruthy a <;> cases hb : getTruthy b <;> cases hc : getTruthy c <;>
    simp [Option.or]

theorem firstTruthy_eq4 (a b c d : Option String) :
    getTruthy (pyOr a (pyOr b (pyOr c d))) = firstTruthy [a, b, c, d] := by
  rw [getTruthy_pyOr, getTruthy_pyOr, getTruthy_pyOr]
  simp [firstTruthy, List.findSome?]
  cases ha : getTruthy a <;> cases hb : getTruthy b <;> cases hc : getTruthy c <;>
    cases hd : getTruthy d <;> simp [Option.or]

theorem rowStep_skip_iff (bd : Nat) (r : RangeRow) :
    rowStep bd r = .skip ↔ (getTruthy (resolveStart r) = none ∨
      getTruthy (resolveEnd r) = none ∨ getTruthy (resolveHead r) = none) := by
  unfold rowStep
  cases hs : getTruthy (resolveStart r) <;>
    cases he : getTruthy (resolveEnd r) <;>
      cases hh : getTruthy (resolveHead r) <;> simp
  cases h1 : yyyymmdd_int (replaceSlash _) <;>
    cases h2 : yyyymmdd_int (replaceSlash _) <;> simp
  split <;> simp

theorem findLoop_cons_skip {bd : Nat} {r : RangeRow} {rest : List RangeRow}
    (h : rowStep bd r = .skip) : findLoop bd (r :: rest) = findLoop bd rest := by
  simp [findLoop, h]

theorem diagnose_stripTails (bd : String) (zmap : List (String × List (String × String)))
    (r1 r2 : List RangeRow) (hmap : r1.map stripTails = r2.map stripTails) :
    diagnose bd r1 zmap = diagnose bd r2 zmap := by
  have h1 : find_head_zodiac bd r1 = find_head_zodiac bd r2 := by
    unfold find_head_zodiac
    cases hbd : yyyymmdd_int bd with
    | none => rfl
    | some n =>
      show findLoop n r1 = findLoop n r2
      rw [← findLoop_stripTails n r1, hmap, findLoop_stripTails]
  unfold diagnose
  rw [h1]

theorem diagnose_ok_tail {bd : String} {ranges : List RangeRow}
    {zmap : List (String × List (String × String))} {out : DiagnoseOut}
    (h : diagnose bd ranges zmap = .ok out) :
    ∃ info, (zmap.find? (fun p => p.1 == out.dragon_head_zodiac)).map (fun p => p.2) = some info ∧
      lookupKey info "dragon_tail_zodiac" = some out.dragon_tail_zodiac := by
  unfold diagnose at h
  split at h
  case h_1 => exact absurd h (by simp)
  case h_2 => exact absurd h (by simp)
  case h_3 => exact absurd h (by simp)
  case h_4 head heq =>
    split at h
    case h_1 => exact absurd h (by simp)
    case h_2 info heq2 =>
      split at h
      case isTrue => exact absurd h (by simp)
      case isFalse hne =>
        split at h
        case isFalse => exact absurd h (by simp)
        case isTrue hkeys =>
          injection h with h2
          subst h2
          refine ⟨info, ?_, ?_⟩
          · simpa using heq2
          · have hsome : (info.find? (fun p => p.1 == "dragon_tail_zodiac")).isSome := by
              have := (List.all_eq_true.mp hkeys) "dragon_tail_zodiac" (by simp [requiredKeys])
              simpa using this
            obtain ⟨p, hp⟩ := Option.isSome_iff_exists.mp hsome
            simp [lookupKey, getVal, hp]

/-! ### Claims -/

/-- C1, counterexample: the normalizer accepts month 13 and day 32 (and
month 0 / day 0), so the claimed invariant month ∈ [1,12], day ∈ [1,31]
fails on the code. -/
theorem claim_C1_counterexample :
    to_yyyy_mm_dd_parts "1970/13/32" = .ok (1970, 13, 32) ∧
    to_yyyy_mm_dd "1970/13/32" = .ok "1970-13-32" ∧
    to_yyyy_mm_dd_parts "1970/0/0" = .ok (1970, 0, 0) ∧
    ¬(1 ≤ 13 ∧ 13 ≤ 12) ∧ ¬(32 ≤ 31) := by
  refine ⟨rfl, rfl, rfl, by decide, by decide⟩

/-- C1 (amended): for every input on which the Date Normalizer succeeds,
the returned month and day each lie in [0, 99] (they are one- or two-digit
captures, zero-padded on output); no calendar-validity check is performed. -/
theorem claim_C1 (raw : String) (y m d : Nat)
    (h : to_yyyy_mm_dd_parts raw = .ok (y, m, d)) : m ≤ 99 ∧ d ≤ 99 := by
  have hb := parts_bounds h
  omega

theorem claim_C1_witness : 7 ≤ 99 ∧ 24 ≤ 99 :=
  claim_C1 "1970-07-24" 1970 7 24 rfl

/-- C2: of the five claimed-equivalent representations of 1970-07-24, the
four ASCII ones normalize to "1970-07-24", but the localized-unit form
(half- or full-width digits) is rejected with the InvalidFormat error:
the FULL2HALF table translates the year/month/day unit characters to
spaces before the localized pattern is tried, so that pattern can never
match, the trailing space defeats the delimited pattern, and the 7
remaining digits defeat the all-digit fallback. -/
theorem claim_C2 :
    to_yyyy_mm_dd "19700724" = .ok "1970-07-24" ∧
    to_yyyy_mm_dd "1970/7/24" = .ok "1970-07-24" ∧
    to_yyyy_mm_dd "1970.7.24" = .ok "1970-07-24" ∧
    to_yyyy_mm_dd "1970-07-24" = .ok "1970-07-24" ∧
    to_yyyy_mm_dd "1970年7月24日" = .error invalidFormatMsg ∧
    to_yyyy_mm_dd "１９７０年７月２４日" = .error invalidFormatMsg := by
  refine ⟨rfl, rfl, rfl, rfl, rfl, rfl⟩

/-- C3: the resolver scans the records in the given order and returns the
head of the first record whose interval contains the date; records after
it (overlapping or not) are irrelevant. -/
theorem claim_C3 (bd_str : String) (bd : Nat) (pre : List RangeRow)
    (r : RangeRow) (post : List RangeRow) (h : String)
    (hbd : yyyymmdd_int bd_str = some bd)
    (hpre : ∀ q ∈ pre, rowStep bd q = .skip ∨ rowStep bd q = .noMatch)
    (hr : rowStep bd r = .matched h) :
    find_head_zodiac bd_str (pre ++ r :: post) = .ok h := by
  unfold find_head_zodiac
  rw [hbd]
  exact findLoop_first bd pre r post h hpre hr

def c3rowPre : RangeRow :=
  { start := some "1960-01-01", end_ := some "1960-12-31",
    dragon_head_zodiac := some "C" }

def c3rowA : RangeRow :=
  { start := some "1970-01-01", end_ := some "1970-12-31",
    dragon_head_zodiac := some "A" }

def c3rowB : RangeRow :=
  { start := some "1970-06-01", end_ := some "1971-06-30",
    dragon_head_zodiac := some "B" }

theorem claim_C3_witness :
    find_head_zodiac "1970-07-24" ([c3rowPre] ++ c3rowA :: [c3rowB]) = .ok "A" :=
  claim_C3 "1970-07-24" 19700724 [c3rowPre] c3rowA [c3rowB] "A"
    (by decide) (by decide) (by decide)

/-- C4: when a record resolves to interval [si, ei] with head h, the match
test is exactly the inclusive si ≤ bd ≤ ei; in particular (under the
assumed start ≤ end) a date equal to either bound matches the record. -/
theorem claim_C4 (r : RangeRow) (si ei : Nat) (h : String)
    (hr : rowData r = some (si, ei, h)) :
    (∀ bd, rowStep bd r = .matched h ↔ (si ≤ bd ∧ bd ≤ ei)) ∧
    (si ≤ ei → rowStep si r = .matched h ∧ rowStep ei r = .matched h) := by
  have hstep := rowStep_of_rowData hr
  constructor
  · intro bd
    rw [hstep bd]
    split
    case isTrue hc => simp [hc]
    case isFalse hc => simp [hc]
  · intro hle
    constructor
    · rw [hstep si, if_pos (by omega)]
    · rw [hstep ei, if_pos (by omega)]

def c4row : RangeRow :=
  { start := some "1969/04/20", end_ := some "1970/11/02",
    head_sign := some "魚座" }

theorem claim_C4_witness :
    rowStep 19690420 c4row = .matched "魚座" ∧
    rowStep 19701102 c4row = .matched "魚座" :=
  (claim_C4 c4row 19690420 19701102 "魚座" rfl).2 (by decide)

def c5rowEmptyStart : RangeRow :=
  { start_date := some "", start := some "1970-01-01",
    end_ := some "1970-12-31", head := some "magician" }

/-- C5, counterexample: on a record whose first synonym key `start_date`
is present but holds the empty string, the code resolves `start` from the
later `start` key (Python `or` skips falsy values), not from the first
*present* key as claimed; the record is then used, not skipped. -/
theorem claim_C5_counterexample :
    specFirstPresent [c5rowEmptyStart.start_date, c5rowEmptyStart.start,
      c5rowEmptyStart.from_] = some "" ∧
    resolveStart c5rowEmptyStart = some "1970-01-01" ∧
    resolveStart c5rowEmptyStart ≠ specFirstPresent [c5rowEmptyStart.start_date,
      c5rowEmptyStart.start, c5rowEmptyStart.from_] ∧
    rowStep 19700615 c5rowEmptyStart = .matched "magician" := by
  refine ⟨rfl, rfl, by decide, by decide⟩

/-- C5 (amended): the resolver takes each required field from the first
synonym key holding a truthy (nonempty) value — a present key holding an
empty string is passed over — and a record whose resolved start, end or
head is missing or empty is skipped silently, the scan continuing with the
next record. -/
theorem claim_C5 :
    (∀ r : RangeRow, getTruthy (resolveStart r) =
      firstTruthy [r.start_date, r.start, r.from_]) ∧
    (∀ r : RangeRow, getTruthy (resolveEnd r) =
      firstTruthy [r.end_date, r.end_, r.to_]) ∧
    (∀ r : RangeRow, getTruthy (resolveHead r) =
      firstTruthy [r.head_sign, r.dragon_head_zodiac, r.zodiac, r.head]) ∧
    (∀ (bd : Nat) (r : RangeRow),
      (getTruthy (resolveStart r) = none ∨ getTruthy (resolveEnd r) = none ∨
        getTruthy (resolveHead r) = none) → rowStep bd r = .skip) ∧
    (∀ (bd : Nat) (r : RangeRow) (rest : List RangeRow),
      rowStep bd r = .skip → findLoop bd (r :: rest) = findLoop bd rest) := by
  refine ⟨fun r => firstTruthy_eq _ _ _, fun r => firstTruthy_eq _ _ _,
    fun r => firstTruthy_eq4 _ _ _ _, ?_, ?_⟩
  · intro bd r hnone
    exact (rowStep_skip_iff bd r).mpr hnone
  · intro bd r rest hskip
    exact findLoop_cons_skip hskip

def c5rowNoEnd : RangeRow :=
  { start := some "1970-01-01", head := some "X" }

def c5rowOther : RangeRow :=
  { start := some "1970-01-01", end_ := some "1970-12-31", head := some "Y" }

theorem claim_C5_witness :
    findLoop 19700724 (c5rowNoEnd :: [c5rowOther]) = findLoop 19700724 [c5rowOther] :=
  claim_C5.2.2.2.2 19700724 c5rowNoEnd [c5rowOther] (by decide)

/-- C6: when neither delimited nor localized form matched and exactly six
digits remain after stripping non-digits, the normalizer reads them as
YYMMDD with the pivot yy ≤ 29 → 2000+yy, else 1900+yy; with the four
literal pivot examples. -/
theorem claim_C6 :
    (∀ raw : String,
      matchDelimited ((pyStrip raw.data).map translateChar) = none →
      matchJapanese ((pyStrip raw.data).map translateChar) = none →
      (((pyStrip raw.data).map translateChar).filter Char.isDigit).length = 6 →
      to_yyyy_mm_dd_parts raw =
        .ok (let ds := ((pyStrip raw.data).map translateChar).filter Char.isDigit
             let yy := digitsToNat (ds.take 2)
             (if yy ≤ 29 then 2000 + yy else 1900 + yy,
              digitsToNat ((ds.drop 2).take 2), digitsToNat ((ds.drop 4).take 2)))) ∧
    to_yyyy_mm_dd "000101" = .ok "2000-01-01" ∧
    to_yyyy_mm_dd "991231" = .ok "1999-12-31" ∧
    to_yyyy_mm_dd "290101" = .ok "2029-01-01" ∧
    to_yyyy_mm_dd "300101" = .ok "1930-01-01" := by
  refine ⟨?_, rfl, rfl, rfl, rfl⟩
  intro raw h1 h2 h6
  unfold to_yyyy_mm_dd_parts
  dsimp only
  rw [h1]
  dsimp only
  rw [h2]
  dsimp only
  rw [if_neg (by omega), if_pos h6]

theorem claim_C6_witness : to_yyyy_mm_dd_parts "300101" = .ok (1930, 1, 1) :=
  claim_C6.1 "300101" rfl rfl rfl

/-- C7: when every record either lacks a required field (and is skipped)
or resolves to an interval not containing the date — in particular when
the date lies strictly outside every interval — the resolver fails with
OutOfRange and nothing else. -/
theorem claim_C7 (bd_str : String) (bd : Nat) (ranges : List RangeRow)
    (hbd : yyyymmdd_int bd_str = some bd)
    (hall : ∀ r ∈ ranges, rowStep bd r = .skip ∨
      ∃ si ei h, rowData r = some (si, ei, h) ∧ ¬(si ≤ bd ∧ bd ≤ ei)) :
    find_head_zodiac bd_str ranges = .error .outOfRange := by
  unfold find_head_zodiac
  rw [hbd]
  apply findLoop_outOfRange
  intro r hr
  rcases hall r hr with hskip | ⟨si, ei, h, hdata, hnot⟩
  · exact Or.inl hskip
  · right
    rw [rowStep_of_rowData hdata bd, if_neg hnot]

def c7row1 : RangeRow :=
  { start := some "1960-01-01", end_ := some "1960-12-31", zodiac := some "X" }

def c7row2 : RangeRow :=
  { start_date := some "1961-01-01", end_date := some "1961-12-31",
    head_sign := some "Y" }

theorem claim_C7_witness :
    find_head_zodiac "1999-01-01" [c7row1, c7row2] = .error .outOfRange := by
  apply claim_C7 "1999-01-01" 19990101 [c7row1, c7row2] (by decide)
  intro r hr
  simp only [List.mem_cons, List.not_mem_nil, or_false] at hr
  rcases hr with rfl | rfl
  · exact Or.inr ⟨19600101, 19601231, "X", rfl, by omega⟩
  · exact Or.inr ⟨19610101, 19611231, "Y", rfl, by omega⟩

/-- C8: every failure of the normalizer carries the single InvalidFormat
message, that message names the example accepted formats, and
"not-a-date" fails with it. -/
theorem claim_C8 :
    (∀ raw e : String, to_yyyy_mm_dd raw = .error e → e = invalidFormatMsg) ∧
    hasSub "19700724".data invalidFormatMsg.data = true ∧
    hasSub "1970/7/24".data invalidFormatMsg.data = true ∧
    hasSub "1970年7月24日".data invalidFormatMsg.data = true ∧
    to_yyyy_mm_dd "not-a-date" = .error invalidFormatMsg := by
  refine ⟨?_, rfl, rfl, rfl, rfl⟩
  intro raw e h
  unfold to_yyyy_mm_dd at h
  cases hp : to_yyyy_mm_dd_parts raw with
  | ok v => rw [hp] at h; exact absurd h (by simp [Except.map])
  | error e2 =>
    rw [hp] at h
    simp [Except.map] at h
    rw [← h]
    exact parts_error_msg hp

theorem claim_C8_witness : invalidFormatMsg = invalidFormatMsg :=
  claim_C8.1 "not-a-date" invalidFormatMsg rfl

/-- C9: the diagnosis outcome is invariant under changing the tail-related
keys of the range records (the resolver never reads them), and the
dragon_tail_zodiac of a successful diagnosis always comes from the theme
mapping entry of the matched head zodiac. -/
theorem claim_C9 :
    (∀ (bd : String) (zmap : List (String × List (String × String)))
      (r1 r2 : List RangeRow), r1.map stripTails = r2.map stripTails →
      diagnose bd r1 zmap = diagnose bd r2 zmap) ∧
    (∀ (bd : String) (ranges : List RangeRow)
      (zmap : List (String × List (String × String))) (out : DiagnoseOut),
      diagnose bd ranges zmap = .ok out →
      ∃ info, (zmap.find? (fun p => p.1 == out.dragon_head_zodiac)).map
          (fun p => p.2) = some info ∧
        lookupKey info "dragon_tail_zodiac" = some out.dragon_tail_zodiac) :=
  ⟨fun bd zmap r1 r2 h => diagnose_stripTails bd zmap r1 r2 h,
   fun _ _ _ _ h => diagnose_ok_tail h⟩

def c9rowTail : RangeRow :=
  { start := some "1970-01-01", end_ := some "1970-12-31",
    dragon_head_zodiac := some "魚座", tail_sign := some "独自の尾",
    tail := some "別の尾" }

def c9rowNoTail : RangeRow :=
  { start := some "1970-01-01", end_ := some "1970-12-31",
    dragon_head_zodiac := some "魚座" }

def c9zmap : List (String × List (String × String)) :=
  [("魚座", [("dragon_tail_zodiac", "乙女座"), ("soul_theme", "4-3"),
             ("reverse_theme", "2-2")])]

theorem claim_C9_witness :
    diagnose "1970-07-24" [c9rowTail] c9zmap =
      diagnose "1970-07-24" [c9rowNoTail] c9zmap :=
  claim_C9.1 "1970-07-24" c9zmap [c9rowTail] [c9rowNoTail] (by decide)

/-- C10: normalization is idempotent — the canonical form maps to itself,
and more generally every successful output re-normalizes to itself. -/
theorem claim_C10 :
    to_yyyy_mm_dd "1970-07-24" = .ok "1970-07-24" ∧
    (∀ raw s : String, to_yyyy_mm_dd raw = .ok s → to_yyyy_mm_dd s = .ok s) := by
  refine ⟨rfl, ?_⟩
  intro raw s h
  unfold to_yyyy_mm_dd at h ⊢
  cases hp : to_yyyy_mm_dd_parts raw with
  | error e => rw [hp] at h; exact absurd h (by simp [Except.map])
  | ok v =>
    rw [hp] at h
    obtain ⟨y, m, d⟩ := v
    simp [Except.map] at h
    subst h
    have hb := parts_bounds hp
    rw [parts_format hb.1 hb.2.1 hb.2.2]
    rfl

theorem claim_C10_witness : to_yyyy_mm_dd "1970-07-24" = .ok "1970-07-24" :=
  claim_C10.2 "19700724" "1970-07-24" rfl
